import Mathlib

/-!
Verification development for the image-composition and background-selection
core of the marketplace listing assistant (src/mla/image_processing.py and
src/mla/backend.py).

Modelling conventions:
- A PIL RGBA image is an `Img`: width, height and a pixel function; pixel
  channel values are natural numbers (0..255 for real images).
- Python float arithmetic is modelled by exact rational arithmetic over ℚ;
  Python `int(x)` is truncation toward zero (`pyInt`), Python `//` on ints is
  floor division, Python `%` on rationals is `qmod`.
- External library calls (PIL resize and rotate, rembg, Image.open, hashlib
  md5, math.sqrt) are fields of an `Ext` record; a call that may raise is
  Option-valued.  Theorems assume only the properties of these externals that
  they need (for example, that resizing a constant image yields a constant
  image), and concrete witnesses instantiate them with simple total models.
- A Python exception caught by a try/except is modelled by the corresponding
  Option match; code paths proved here never depend on unmodelled raising.
-/

attribute [local semireducible] Rat.add Rat.mul Rat.sub Rat.inv

set_option maxRecDepth 200000

namespace MLA

/-- One RGBA pixel: red, green, blue, alpha channels. -/
structure RGBA where
  r : ℕ
  g : ℕ
  b : ℕ
  a : ℕ
deriving DecidableEq, Repr

/-- An in-memory raster image: dimensions and a pixel function. -/
structure Img where
  width : ℕ
  height : ℕ
  px : ℕ → ℕ → RGBA

/-- An (R,G,B) colour triple. -/
abbrev Color := ℕ × ℕ × ℕ

/-- Image with every pixel equal to `c` (PIL `Image.new` with a constant fill). -/
def constImg (w h : ℕ) (c : RGBA) : Img := ⟨w, h, fun _ _ => c⟩

/-- Two images agree on dimensions and on every in-bounds pixel (pixel-identical
in the sense of PIL, even if the Lean pixel functions differ out of bounds,
which plays the role of two distinct in-memory objects). -/
def sameContent (A B : Img) : Prop :=
  A.width = B.width ∧ A.height = B.height ∧
    ∀ x, x < A.width → ∀ y, y < A.height → A.px x y = B.px x y

instance (A B : Img) : Decidable (sameContent A B) := by
  unfold sameContent; infer_instance

/-- PIL `Image.tobytes` for an RGBA image: row-major RGBA byte stream. -/
def tobytes (img : Img) : List ℕ :=
  (List.range img.height).flatMap fun y =>
    (List.range img.width).flatMap fun x =>
      [(img.px x y).r, (img.px x y).g, (img.px x y).b, (img.px x y).a]

/-- PIL `Image.getdata`: row-major list of pixels. -/
def getdata (img : Img) : List RGBA :=
  (List.range img.height).flatMap fun y =>
    (List.range img.width).map fun x => img.px x y

/-- Python `int(x)` on a float/rational: truncation toward zero. -/
def pyInt (q : ℚ) : ℤ := if 0 ≤ q then q.floor else -(-q).floor

/-- Python `%` on floats/rationals (result has the sign of the modulus). -/
def qmod (x m : ℚ) : ℚ := x - m * ((x / m).floor : ℚ)

/-- External collaborators of the core: PIL resize and rotate, the rembg
segmentation call, Image.open, the md5 content hash, and math.sqrt.
Fallible calls are Option-valued (`none` models a raised exception). -/
structure Ext where
  resize : Img → ℕ → ℕ → Option Img
  rotate : Img → ℚ → Img
  rembg : Img → Option Img
  openImage : String → Option Img
  md5hex : List ℕ → List ℕ
  sqrtQ : ℕ → ℚ

/-- Key of the dominant-colour cache: content hash plus size plus the
ignore-transparent flag (src/mla/image_processing.py line 106). -/
abbrev CacheKey := List ℕ × ℕ × ℕ × Bool

/-- Mutable state of `ImageProcessor`: canvas presets and the dominant-colour
cache (an insertion-ordered association list, like a Python dict). -/
structure ProcState where
  canvasWidthV : ℕ
  canvasHeightV : ℕ
  canvasWidthH : ℕ
  canvasHeightH : ℕ
  domCache : List (CacheKey × Color)

/-- Freshly constructed `ImageProcessor`: default canvas presets 600×800
(vertical) and 800×600 (horizontal), empty cache (constants.py lines 25-28). -/
def initState : ProcState := ⟨600, 800, 800, 600, []⟩

/-- Dictionary lookup in the dominant-colour cache. -/
def lookupCache (cache : List (CacheKey × Color)) (k : CacheKey) : Option Color :=
  (cache.find? fun e => decide (e.1 = k)).map (·.2)

/-- Insert at the end (Python dicts preserve insertion order), then trim the
oldest 50 entries once the cache exceeds 200 entries
(src/mla/image_processing.py lines 133-136). -/
def insertTrim (cache : List (CacheKey × Color)) (k : CacheKey) (c : Color) :
    List (CacheKey × Color) :=
  let cache1 := cache ++ [(k, c)]
  if 200 < cache1.length then cache1.drop 50 else cache1

/-- Cache key computed by `compute_dominant_color`. -/
def cacheKey (ext : Ext) (img : Img) (ignoreTransparent : Bool) : CacheKey :=
  (ext.md5hex (tobytes img), img.width, img.height, ignoreTransparent)

/-- Accumulate channel sums and the count of included pixels, mirroring the
for loop of `compute_dominant_color` (lines 120-125). -/
def sumPixels (ignoreTransparent : Bool) (pixels : List RGBA) : ℕ × ℕ × ℕ × ℕ :=
  pixels.foldl
    (fun acc p =>
      if !ignoreTransparent || 128 < p.a then
        (acc.1 + p.r, acc.2.1 + p.g, acc.2.2.1 + p.b, acc.2.2.2 + 1)
      else acc)
    (0, 0, 0, 0)

/-- Colour computed from the downscaled image by `compute_dominant_color`
(lines 118-130): integer average of the included pixels, neutral gray when
none qualifies. -/
def avgColor (ignoreTransparent : Bool) (small : Img) : Color :=
  let s := sumPixels ignoreTransparent (getdata small)
  if s.2.2.2 = 0 then (128, 128, 128)
  else (s.1 / s.2.2.2, s.2.1 / s.2.2.2, s.2.2.1 / s.2.2.2)

/-- ImageProcessor.compute_dominant_color (image_processing.py lines 102-140):
check the content-keyed cache, else downscale to 30×30, average the included
pixels (skipping near-transparent ones when the flag is set), fall back to
neutral gray on an empty average or on any internal failure (modelled by the
external resize raising), and cache the computed colour.  Returns the colour
and the updated processor state. -/
def compute_dominant_color (ext : Ext) (st : ProcState) (image : Img)
    (ignoreTransparent : Bool) : Color × ProcState :=
  let k := cacheKey ext image ignoreTransparent
  match lookupCache st.domCache k with
  | some c => (c, st)
  | none =>
    match ext.resize image 30 30 with
    | none => ((128, 128, 128), st)
    | some small =>
      let color := avgColor ignoreTransparent small
      (color, { st with domCache := insertTrim st.domCache k color })

/-- Inner helper `hsv_to_rgb` of `_complementary_color`
(image_processing.py lines 181-200), over exact rationals. -/
def hsv_to_rgb (h s v : ℚ) : Color :=
  let i : ℤ := pyInt (h * 6)
  let f : ℚ := h * 6 - i
  let p : ℚ := v * (1 - s)
  let q : ℚ := v * (1 - f * s)
  let t : ℚ := v * (1 - (1 - f) * s)
  let i2 : ℤ := i % 6
  let rgb : ℚ × ℚ × ℚ :=
    if i2 = 0 then (v, t, p)
    else if i2 = 1 then (q, v, p)
    else if i2 = 2 then (p, v, t)
    else if i2 = 3 then (p, q, v)
    else if i2 = 4 then (t, p, v)
    else (v, p, q)
  ((pyInt (rgb.1 * 255)).toNat, (pyInt (rgb.2.1 * 255)).toNat,
    (pyInt (rgb.2.2 * 255)).toNat)

/-- Hue of a colour as computed inline by `_complementary_color`
(lines 162-173), before normalisation by 6. -/
def hueOf (c : Color) : ℚ :=
  let rf : ℚ := c.1 / 255
  let gf : ℚ := c.2.1 / 255
  let bf : ℚ := c.2.2 / 255
  let maxf := max rf (max gf bf)
  let minf := min rf (min gf bf)
  let difff := maxf - minf
  if difff = 0 then 0
  else if maxf = rf then qmod ((gf - bf) / difff) 6
  else if maxf = gf then (bf - rf) / difff + 2
  else (rf - gf) / difff + 4

/-- Value channel (HSV) of a colour as computed by `_complementary_color`. -/
def valueOf (c : Color) : ℚ :=
  max ((c.1 : ℚ) / 255) (max ((c.2.1 : ℚ) / 255) ((c.2.2 : ℚ) / 255))

/-- Saturation channel (HSV) of a colour as computed by
`_complementary_color` (line 179). -/
def saturationOf (c : Color) : ℚ :=
  let maxf := valueOf c
  let minf := min ((c.1 : ℚ) / 255) (min ((c.2.1 : ℚ) / 255) ((c.2.2 : ℚ) / 255))
  if maxf = 0 then 0 else (maxf - minf) / maxf

/-- ImageProcessor._complementary_color (image_processing.py lines 146-202):
for gray input return the photometric inverse, otherwise rotate the hue by
180 degrees keeping saturation and value and convert back to RGB. -/
def _complementary_color (c : Color) : Color :=
  let maxc := max c.1 (max c.2.1 c.2.2)
  let minc := min c.1 (min c.2.1 c.2.2)
  if maxc - minc = 0 then (255 - maxc, 255 - maxc, 255 - maxc)
  else
    let hue := qmod (hueOf c / 6 + 1 / 2) 1
    hsv_to_rgb hue (saturationOf c) (valueOf c)

/-- Squared Euclidean distance between two colours (the exact integer under
the square root in `_color_distance`, line 144). -/
def sqDist (c1 c2 : Color) : ℕ :=
  (((c1.1 : ℤ) - c2.1) ^ 2 + ((c1.2.1 : ℤ) - c2.2.1) ^ 2 +
    ((c1.2.2 : ℤ) - c2.2.2) ^ 2).toNat

/-- ImageProcessor._color_distance: math.sqrt of the squared distance,
with the square root supplied by the external model. -/
def _color_distance (ext : Ext) (c1 c2 : Color) : ℚ :=
  ext.sqrtQ (sqDist c1 c2)

/-- Loop of `find_best_background` (image_processing.py lines 215-234),
threading (best_bg, best_distance, processor state) through the candidates.
A candidate that fails to open is skipped. -/
def findBestAux (ext : Ext) (clothingColor targetColor : Color) :
    List String → Option String × ℚ × ProcState → Option String × ℚ × ProcState
  | [], acc => acc
  | p :: rest, acc =>
    let acc1 :=
      match ext.openImage p with
      | none => acc
      | some bgImage =>
        let r := compute_dominant_color ext acc.2.2 bgImage false
        let distance := _color_distance ext targetColor r.1
        let direct := _color_distance ext clothingColor r.1
        let score := direct - distance * (1 / 2)
        if acc.2.1 < score then (some p, score, r.2)
        else (acc.1, acc.2.1, r.2)
    findBestAux ext clothingColor targetColor rest acc1

/-- ImageProcessor.find_best_background (lines 207-236): score each candidate
by distance from the clothing colour minus half its distance from the
complementary target, keeping the best strictly-improving score, starting
from best_distance = 0. -/
def find_best_background (ext : Ext) (st : ProcState) (clothingImage : Img)
    (backgroundPaths : List String) : Option String × ProcState :=
  let r0 := compute_dominant_color ext st clothingImage true
  let target := _complementary_color r0.1
  let r := findBestAux ext r0.1 target backgroundPaths (none, 0, r0.2)
  (r.1, r.2.2)

/-- Loop of `_find_best_background_by_color` (lines 250-261): minimise the
distance to the target colour; `none` as best distance models float inf. -/
def findByColorAux (ext : Ext) (targetColor : Color) :
    List String → Option String × Option ℚ × ProcState →
      Option String × Option ℚ × ProcState
  | [], acc => acc
  | p :: rest, acc =>
    let acc1 :=
      match ext.openImage p with
      | none => acc
      | some bgImage =>
        let r := compute_dominant_color ext acc.2.2 bgImage false
        let d := _color_distance ext targetColor r.1
        match acc.2.1 with
        | none => (some p, some d, r.2)
        | some bd => if d < bd then (some p, some d, r.2) else (acc.1, some bd, r.2)
    findByColorAux ext targetColor rest acc1

/-- ImageProcessor._find_best_background_by_color (lines 246-262). -/
def _find_best_background_by_color (ext : Ext) (st : ProcState)
    (targetColor : Color) (backgroundPaths : List String) :
    Option String × ProcState :=
  let r := findByColorAux ext targetColor backgroundPaths (none, none, st)
  (r.1, r.2.2)

/-- ImageProcessor.find_best_background_for_project (lines 238-244): average
the dominant colours of the subject images, then delegate to
`_find_best_background_by_color`. -/
def find_best_background_for_project (ext : Ext) (st : ProcState)
    (noBgImages : List Img) (backgroundPaths : List String) :
    Option String × ProcState :=
  let r := noBgImages.foldl
    (fun (acc : List Color × ProcState) img =>
      let q := compute_dominant_color ext acc.2 img true
      (acc.1 ++ [q.1], q.2))
    ([], st)
  if r.1.isEmpty then (none, r.2)
  else
    let n := r.1.length
    let avg : Color :=
      ((r.1.map (·.1)).sum / n, (r.1.map (·.2.1)).sum / n,
        (r.1.map (·.2.2)).sum / n)
    _find_best_background_by_color ext r.2 avg backgroundPaths

/-- True when `p i` holds for some `i < n`. -/
def anyBelow (n : ℕ) (p : ℕ → Bool) : Bool :=
  match n with
  | 0 => false
  | m + 1 => p m || anyBelow m p

/-- Smallest `i < n` with `p i`, if any. -/
def findFirst (p : ℕ → Bool) : ℕ → Option ℕ
  | 0 => none
  | m + 1 =>
    match findFirst p m with
    | some k => some k
    | none => if p m then some m else none

/-- Largest `i < n` with `p i`, if any. -/
def findLast (p : ℕ → Bool) : ℕ → Option ℕ
  | 0 => none
  | m + 1 => if p m then some m else findLast p m

/-- PIL `getbbox` over a pixel predicate: the tightest (left, upper, right,
lower) box, with exclusive right/lower bounds, containing every (x, y) with
`x < w`, `y < h` and `cond x y`; `none` when no such pixel exists. -/
def getbbox (w h : ℕ) (cond : ℕ → ℕ → Bool) : Option (ℕ × ℕ × ℕ × ℕ) :=
  let colHit := fun x => anyBelow h fun y => cond x y
  let rowHit := fun y => anyBelow w fun x => cond x y
  match findFirst colHit w, findFirst rowHit h,
      findLast colHit w, findLast rowHit h with
  | some x0, some y0, some x1, some y1 => some (x0, y0, x1 + 1, y1 + 1)
  | _, _, _, _ => none

/-- ImageProcessor._effective_bbox (image_processing.py lines 267-287): the
bounding box of the pixels whose alpha exceeds the threshold (the LUT maps
alpha ≤ threshold to 0); when there is no such pixel, fall back to the PIL
RGBA getbbox over nonzero pixels. -/
def _effective_bbox (img : Img) (alphaThreshold : ℕ) : Option (ℕ × ℕ × ℕ × ℕ) :=
  match getbbox img.width img.height
      (fun x y => decide (alphaThreshold < (img.px x y).a)) with
  | some b => some b
  | none =>
    getbbox img.width img.height (fun x y => decide (img.px x y ≠ ⟨0, 0, 0, 0⟩))

/-- PIL `Image.crop` with an in-bounds (left, upper, right, lower) box. -/
def crop (img : Img) (box : ℕ × ℕ × ℕ × ℕ) : Img :=
  ⟨box.2.2.1 - box.1, box.2.2.2 - box.2.1,
    fun x y => img.px (box.1 + x) (box.2.1 + y)⟩

/-- Cropping step of `fit_clothing` (lines 316-322): crop to the effective
bounding box when one exists, else keep the whole image. -/
def croppedClothing (img : Img) : Img :=
  match _effective_bbox img 10 with
  | some box => crop img box
  | none => img

/-- Geometry of `fit_clothing` (lines 324-338): the resized subject size and
the clamped paste position, over exact rationals. -/
structure FitGeo where
  newW : ℤ
  newH : ℤ
  finalX : ℤ
  finalY : ℤ
deriving DecidableEq, Repr

/-- Scale-and-clamp computation of `fit_clothing` (lines 324-338): fit scale
from canvas over cloth dimensions, multiply by the user scale, truncate the
new size, centre, add offsets as fractions of the canvas, clamp to
[0, canvas − size]. -/
def fitGeometry (canvasW canvasH clothW clothH : ℕ) (vof hof scale : ℚ) :
    FitGeo :=
  let scaleW : ℚ := (canvasW : ℚ) / (clothW : ℚ)
  let scaleH : ℚ := (canvasH : ℚ) / (clothH : ℚ)
  let fitScale := min scaleW scaleH
  let finalScale := fitScale * scale
  let newW := pyInt ((clothW : ℚ) * finalScale)
  let newH := pyInt ((clothH : ℚ) * finalScale)
  let baseX := ((canvasW : ℤ) - newW).fdiv 2
  let baseY := ((canvasH : ℤ) - newH).fdiv 2
  let offsetX := pyInt (hof * (canvasW : ℚ))
  let offsetY := pyInt (vof * (canvasH : ℚ))
  let finalX := max 0 (min (baseX + offsetX) ((canvasW : ℤ) - newW))
  let finalY := max 0 (min (baseY + offsetY) ((canvasH : ℤ) - newH))
  ⟨newW, newH, finalX, finalY⟩

/-- Pillow MULDIV255 rounding primitive used by paste blending. -/
def muldiv255 (x y : ℕ) : ℕ :=
  let t := x * y + 128
  (t / 256 + t) / 256

/-- Pillow per-channel blend for paste with a mask: weighted average of the
base and pasted channel by the mask value. -/
def blendCh (mask base top : ℕ) : ℕ :=
  muldiv255 base (255 - mask) + muldiv255 top mask

/-- PIL `Image.paste(top, (ox, oy), top)` for RGBA images: inside the paste
rectangle every channel (alpha included) is blended by the alpha of the
pasted image; a fully opaque pasted pixel replaces the base pixel. -/
def pasteMask (base top : Img) (ox oy : ℤ) : Img :=
  ⟨base.width, base.height, fun x y =>
    if ox ≤ (x : ℤ) ∧ (x : ℤ) < ox + top.width ∧
        oy ≤ (y : ℤ) ∧ (y : ℤ) < oy + top.height then
      let tp := top.px ((x : ℤ) - ox).toNat ((y : ℤ) - oy).toNat
      let bp := base.px x y
      ⟨blendCh tp.a bp.r tp.r, blendCh tp.a bp.g tp.g,
        blendCh tp.a bp.b tp.b, blendCh tp.a bp.a tp.a⟩
    else base.px x y⟩

/-- RGBA fill pixel for PIL `Image.new` given an RGB triple: alpha 255. -/
def rgbaOfColor (c : Color) : RGBA := ⟨c.1, c.2.1, c.2.2, 255⟩

/-- Canvas construction step of `fit_clothing` (lines 307-314): a solid
canvas filled with the complementary colour of the dominant colour of the
(possibly rotated) clothing image when `use_solid_bg` is set or no
background image is supplied; otherwise the background image resized to the
canvas (`none` models a raised exception). -/
def canvasFor (ext : Ext) (st : ProcState) (useSolidBg : Bool)
    (backgroundImage : Option Img) (clothing : Img) (canvasW canvasH : ℕ) :
    Option Img × ProcState :=
  if useSolidBg || backgroundImage.isNone then
    let r := compute_dominant_color ext st clothing true
    (some (constImg canvasW canvasH (rgbaOfColor (_complementary_color r.1))), r.2)
  else
    match backgroundImage with
    | some bg => (ext.resize bg canvasW canvasH, st)
    | none => (none, st)

/-- ImageProcessor.fit_clothing (image_processing.py lines 289-343): rotate
if requested, build the canvas, crop the subject to its effective bounding
box, scale and clamp, paste with the subject as its own mask.  Any exception
(modelled: failing external call, zero crop dimension causing a division by
zero, negative resize size) yields the flat placeholder canvas.  Returns the
composited image and the updated processor state. -/
def fit_clothing (ext : Ext) (st : ProcState) (clothingImage : Img)
    (backgroundImage : Option Img) (vof hof scale : ℚ)
    (isHorizontal useSolidBg : Bool) (rotationAngle : ℚ) : Img × ProcState :=
  let canvasW := if isHorizontal then st.canvasWidthH else st.canvasWidthV
  let canvasH := if isHorizontal then st.canvasHeightH else st.canvasHeightV
  let placeholder := constImg canvasW canvasH ⟨200, 200, 200, 255⟩
  let clothing :=
    if rotationAngle ≠ 0 then ext.rotate clothingImage rotationAngle
    else clothingImage
  let c := canvasFor ext st useSolidBg backgroundImage clothing canvasW canvasH
  match c.1 with
  | none => (placeholder, c.2)
  | some canvas =>
    let cropped := croppedClothing clothing
    if cropped.width = 0 ∨ cropped.height = 0 then (placeholder, c.2)
    else
      let geo := fitGeometry canvasW canvasH cropped.width cropped.height
        vof hof scale
      if geo.newW < 0 ∨ geo.newH < 0 then (placeholder, c.2)
      else
        match ext.resize cropped geo.newW.toNat geo.newH.toNat with
        | none => (placeholder, c.2)
        | some resized => (pasteMask canvas resized geo.finalX geo.finalY, c.2)

/-- ImageProcessor.remove_background (image_processing.py lines 71-100):
downscale when the longest side exceeds `maxSize`, call the external
segmentation routine, upscale the result back when downscaling happened.
The except clause returns the current value of the local variable
`pil_image`, which after a successful downscale is the downscaled image,
not the original. -/
def remove_background (ext : Ext) (pilImage : Img) (maxSize : ℕ) : Img :=
  if maxSize < max pilImage.width pilImage.height then
    let scaleFactor : ℚ := (maxSize : ℚ) / (max pilImage.width pilImage.height : ℚ)
    let newW := (pyInt ((pilImage.width : ℚ) * scaleFactor)).toNat
    let newH := (pyInt ((pilImage.height : ℚ) * scaleFactor)).toNat
    match ext.resize pilImage newW newH with
    | none => pilImage
    | some small =>
      match ext.rembg small with
      | none => small
      | some result =>
        match ext.resize result pilImage.width pilImage.height with
        | none => small
        | some final => final
  else
    match ext.rembg pilImage with
    | none => pilImage
    | some result => result

/-- Error message returned by the worker for a missing or empty project. -/
def noProjectMsg : String := "No project/images"

/-- The mutable per-image processing record (backend.py; fields of
`ImageProcessor.default_processed_entry`, image_processing.py lines 375-390,
plus the `individual_override` flag read with default False). -/
structure ProcessedRec where
  path : String
  noBg : Option Img
  bgPath : Option String
  userBgPath : Option String
  processed : Option Img
  vof : ℚ
  hof : ℚ
  scale : ℚ
  isHorizontal : Bool
  useSolidBg : Bool
  skipBgRemoval : Bool
  rotationAngle : ℚ
  individualOverride : Bool

/-- ImageProcessor.default_processed_entry (image_processing.py lines
375-390) together with the absent `individual_override` key read as False:
defaults vof = hof = 0, scale = 0.85, vertical canvas, no rotation. -/
def default_processed_entry (path : String) (useSolidBg : Bool) : ProcessedRec :=
  { path := path
    noBg := none
    bgPath := none
    userBgPath := none
    processed := none
    vof := 0
    hof := 0
    scale := 17 / 20
    isHorizontal := false
    useSolidBg := useSolidBg
    skipBgRemoval := false
    rotationAngle := 0
    individualOverride := false }

/-- Backend state relevant to batch processing: the global solid-background
flag, the background candidate paths, and the image-processor state. -/
structure BackendSt where
  useSolidBg : Bool
  backgrounds : List String
  proc : ProcState

/-- A project as seen by the batch worker: the loaded clothing images
(path and bitmap) and the processed-image records. -/
structure Project where
  clothingImages : List (String × Img)
  processedImages : List ProcessedRec

/-- Backend._ensure_processed_entry (backend.py lines 312-328): reuse the
existing record at the index, or append a fresh default record (every field
of the default entry is populated, so the setdefault calls are no-ops). -/
def _ensure_processed_entry (bst : BackendSt) (proj : Project) (index : ℕ) :
    ProcessedRec × Project :=
  match proj.processedImages[index]? with
  | some e => (e, proj)
  | none =>
    let path := ((proj.clothingImages[index]?).map (·.1)).getD ""
    let e := default_processed_entry path bst.useSolidBg
    (e, { proj with processedImages := proj.processedImages ++ [e] })

/-- Body of the per-image loop of `_process_project_images_worker`
(backend.py lines 399-443): decide whether the image needs processing,
remove the background, reset the record to defaults (dict.update keeps the
`individual_override` key), select a background when the global mode wants
one, composite, and store the result.  The model is total, so the except
clause that would append an error string never fires. -/
def workerStep (ext : Ext) (bst : BackendSt)
    (acc : Project × ProcState × List String) (idxItem : ℕ × String × Img) :
    Project × ProcState × List String :=
  let proj := acc.1
  let pst := acc.2.1
  let errors := acc.2.2
  let idx := idxItem.1
  let item := idxItem.2
  let e := _ensure_processed_entry bst proj idx
  let entry := e.1
  let proj1 := e.2
  let needsProcessing :=
    entry.processed.isNone ||
      (!entry.individualOverride && entry.useSolidBg != bst.useSolidBg)
  if !needsProcessing then (proj1, pst, errors)
  else
    let noBg := remove_background ext item.2 1200
    let entry1 := { default_processed_entry item.1 bst.useSolidBg with
      individualOverride := entry.individualOverride, noBg := some noBg }
    let step :=
      if !bst.useSolidBg && !bst.backgrounds.isEmpty then
        let r := find_best_background ext pst noBg bst.backgrounds
        match r.1 with
        | some best =>
          (ext.openImage best, { entry1 with bgPath := some best }, r.2)
        | none => (none, entry1, r.2)
      else (none, entry1, pst)
    let r2 := fit_clothing ext step.2.2 noBg step.1 step.2.1.vof step.2.1.hof
      step.2.1.scale step.2.1.isHorizontal step.2.1.useSolidBg
      step.2.1.rotationAngle
    let entry3 := { step.2.1 with processed := some r2.1 }
    ({ proj1 with processedImages := proj1.processedImages.set idx entry3 },
      r2.2, errors)

/-- Backend._process_project_images_worker (backend.py lines 390-449): guard
against an empty project, then run the per-image loop in list order.  The
code invokes `progress_callback` before each iteration and once at the end,
but discards its return value, so the callback argument does not influence
the result; no cancellation flag is consulted anywhere.  Returns the status
flag and error list of the Python function, plus the updated project and
processor state. -/
def _process_project_images_worker (ext : Ext) (bst : BackendSt)
    (proj : Project) (progressCallback : ℕ → ℕ → String → Bool) :
    Bool × List String × Project × ProcState :=
  if proj.clothingImages.isEmpty then
    (false, [noProjectMsg], proj, bst.proc)
  else
    let r := (proj.clothingImages.enum).foldl (workerStep ext bst)
      (proj, bst.proc, [])
    (true, r.2.2, r.1, r.2.1)

/-!
Concrete instantiations of the external collaborators, used by witnesses and
counterexamples.  `pxTopLeft` reads the top-left pixel of a nonempty image,
so the model resize maps any constant image to the constant image of the
requested size and depends only on in-bounds content.
-/

/-- Floor integer square root by 20-bit binary search (sums of squared
channel differences are at most 3·255² < 2^18, so 20 bits suffice); a
concrete stand-in for math.sqrt, rounded down.  Every comparison made by the
selection code on the concrete inputs below is robust to this rounding. -/
def isqrtFloor (n : ℕ) : ℕ :=
  (List.range 20).foldl
    (fun acc i =>
      let cand := acc + 2 ^ (19 - i)
      if cand * cand ≤ n then cand else acc)
    0

/-- Top-left pixel of a nonempty image, default pixel otherwise. -/
def pxTopLeft (img : Img) : RGBA :=
  if 0 < img.width ∧ 0 < img.height then img.px 0 0 else ⟨0, 0, 0, 0⟩

/-- Path literal for the cyan background candidate. -/
def pathCyan : String := "cyan.png"

/-- Path literal for the red background candidate. -/
def pathRed : String := "red.png"

/-- Fully opaque red pixel. -/
def redA : RGBA := ⟨255, 0, 0, 255⟩

/-- Fully opaque cyan pixel. -/
def cyanA : RGBA := ⟨0, 255, 255, 255⟩

/-- Concrete external model: resize to a constant image of the top-left
pixel, identity rotate, identity segmentation, a two-file background
library, identity content hash, floor integer square root. -/
def extC : Ext :=
  { resize := fun img w h => some (constImg w h (pxTopLeft img))
    rotate := fun img _ => img
    rembg := fun img => some img
    openImage := fun s =>
      if s = pathCyan then some (constImg 4 4 cyanA)
      else if s = pathRed then some (constImg 4 4 redA)
      else none
    md5hex := fun l => l
    sqrtQ := fun n => (isqrtFloor n : ℚ) }

/-- External model whose segmentation call raises. -/
def extFail : Ext := { extC with rembg := fun _ => none }

/-!
Helper lemmas.
-/

theorem ratFloor_eq_intFloor (q : ℚ) : q.floor = ⌊q⌋ := by
  rw [Rat.floor_def, Rat.floor_def']

theorem pyInt_of_nonneg {q : ℚ} (h : 0 ≤ q) : pyInt q = ⌊q⌋ := by
  rw [pyInt, if_pos h, ratFloor_eq_intFloor]

theorem cdc_hit {ext : Ext} {st : ProcState} {img : Img} {it : Bool} {c : Color}
    (hlk : lookupCache st.domCache (cacheKey ext img it) = some c) :
    compute_dominant_color ext st img it = (c, st) := by
  simp only [compute_dominant_color, hlk]

theorem cdc_fail {ext : Ext} {st : ProcState} {img : Img} {it : Bool}
    (hlk : lookupCache st.domCache (cacheKey ext img it) = none)
    (hres : ext.resize img 30 30 = none) :
    compute_dominant_color ext st img it = ((128, 128, 128), st) := by
  simp only [compute_dominant_color, hlk, hres]

theorem cdc_miss {ext : Ext} {st : ProcState} {img : Img} {it : Bool} {small : Img}
    (hlk : lookupCache st.domCache (cacheKey ext img it) = none)
    (hres : ext.resize img 30 30 = some small) :
    compute_dominant_color ext st img it =
      (avgColor it small,
        { st with domCache :=
            insertTrim st.domCache (cacheKey ext img it) (avgColor it small) }) := by
  simp only [compute_dominant_color, hlk, hres]

theorem find?_eq_none_of_sub {α : Type} {l l2 : List α} {p : α → Bool}
    (hsub : ∀ x, x ∈ l2 → x ∈ l) (h : l.find? p = none) : l2.find? p = none := by
  rw [List.find?_eq_none] at h ⊢
  exact fun x hx => h x (hsub x hx)

theorem lookup_insertTrim_self {cache : List (CacheKey × Color)} {k : CacheKey}
    {c : Color} (h : lookupCache cache k = none) :
    lookupCache (insertTrim cache k c) k = some c := by
  have hfind : cache.find? (fun e => decide (e.1 = k)) = none := by
    unfold lookupCache at h
    cases hf : cache.find? (fun e => decide (e.1 = k)) with
    | none => rfl
    | some e => rw [hf] at h; simp at h
  have hsingle : List.find? (fun e => decide (e.1 = k)) [(k, c)] = some (k, c) := by
    simp [List.find?]
  unfold insertTrim lookupCache
  by_cases hlen : 200 < (cache ++ [(k, c)]).length
  · rw [if_pos hlen]
    have h50 : 50 ≤ cache.length := by
      simp [List.length_append] at hlen; omega
    rw [List.drop_append_of_le_length h50, List.find?_append,
      find?_eq_none_of_sub (fun x hx => List.mem_of_mem_drop hx) hfind]
    simp [hsingle]
  · rw [if_neg hlen, List.find?_append, hfind]
    simp [hsingle]

theorem insertTrim_length_le (cache : List (CacheKey × Color)) (k : CacheKey)
    (c : Color) : (insertTrim cache k c).length ≤ cache.length + 1 := by
  unfold insertTrim
  by_cases hlen : 200 < (cache ++ [(k, c)]).length
  · rw [if_pos hlen]
    simp only [List.length_drop, List.length_append, List.length_cons,
      List.length_nil]
    omega
  · rw [if_neg hlen]
    simp [List.length_append]

theorem flatMap_congr_mem {α β : Type} {l : List α} {f g : α → List β}
    (h : ∀ a, a ∈ l → f a = g a) : l.flatMap f = l.flatMap g := by
  induction l with
  | nil => rfl
  | cons x xs ih =>
    simp only [List.flatMap_cons]
    rw [h x (List.mem_cons_self x xs), ih (fun a ha => h a (List.mem_cons_of_mem x ha))]

theorem tobytes_congr {A B : Img} (h : sameContent A B) : tobytes A = tobytes B := by
  obtain ⟨hw, hh, hpx⟩ := h
  unfold tobytes
  rw [hh, hw]
  refine flatMap_congr_mem fun y hy => ?_
  refine flatMap_congr_mem fun x hx => ?_
  rw [List.mem_range] at hy hx
  rw [hpx x (hw ▸ hx) y (hh ▸ hy)]

theorem cacheKey_congr {ext : Ext} {A B : Img} {it : Bool} (h : sameContent A B) :
    cacheKey ext A it = cacheKey ext B it := by
  unfold cacheKey
  rw [tobytes_congr h, h.1, h.2.1]

theorem sumPixels_foldl (it : Bool) (l : List RGBA) (a b c d : ℕ) :
    l.foldl
      (fun acc p =>
        if !it || 128 < p.a then
          (acc.1 + p.r, acc.2.1 + p.g, acc.2.2.1 + p.b, acc.2.2.2 + 1)
        else acc)
      (a, b, c, d) =
      (a + ((l.filter fun p => !it || decide (128 < p.a)).map (·.r)).sum,
        b + ((l.filter fun p => !it || decide (128 < p.a)).map (·.g)).sum,
        c + ((l.filter fun p => !it || decide (128 < p.a)).map (·.b)).sum,
        d + (l.filter fun p => !it || decide (128 < p.a)).length) := by
  induction l generalizing a b c d with
  | nil => simp
  | cons p rest ih =>
    simp only [List.foldl_cons, List.filter_cons]
    by_cases hp : (!it || decide (128 < p.a)) = true
    · rw [if_pos hp, if_pos hp, ih]
      simp only [List.map_cons, List.sum_cons, List.length_cons, Prod.mk.injEq]
      exact ⟨by omega, by omega, by omega, by omega⟩
    · rw [if_neg hp, if_neg hp, ih]

theorem sumPixels_eq (it : Bool) (l : List RGBA) :
    sumPixels it l =
      (((l.filter fun p => !it || decide (128 < p.a)).map (·.r)).sum,
        ((l.filter fun p => !it || decide (128 < p.a)).map (·.g)).sum,
        ((l.filter fun p => !it || decide (128 < p.a)).map (·.b)).sum,
        (l.filter fun p => !it || decide (128 < p.a)).length) := by
  unfold sumPixels
  rw [sumPixels_foldl]
  simp

theorem anyBelow_eq_true {n : ℕ} {p : ℕ → Bool} :
    anyBelow n p = true ↔ ∃ i, i < n ∧ p i = true := by
  induction n with
  | zero => simp [anyBelow]
  | succ m ih =>
    simp only [anyBelow, Bool.or_eq_true, ih]
    constructor
    · rintro (h | ⟨i, hi, hp⟩)
      · exact ⟨m, Nat.lt_succ_self m, h⟩
      · exact ⟨i, Nat.lt_succ_of_lt hi, hp⟩
    · rintro ⟨i, hi, hp⟩
      rcases Nat.lt_succ_iff_lt_or_eq.mp hi with h | rfl
      · exact Or.inr ⟨i, h, hp⟩
      · exact Or.inl hp

theorem findFirst_eq_none_iff {p : ℕ → Bool} {n : ℕ} :
    findFirst p n = none ↔ ∀ j, j < n → p j = false := by
  induction n with
  | zero => simp [findFirst]
  | succ m ih =>
    simp only [findFirst]
    cases hm : findFirst p m with
    | some k =>
      simp only [reduceCtorEq, false_iff]
      intro hall
      rw [ih.mpr fun j hj => hall j (Nat.lt_succ_of_lt hj)] at hm
      exact Option.noConfusion hm
    | none =>
      have hall := ih.mp hm
      by_cases hpm : p m = true
      · simp only [hpm, if_true, reduceCtorEq, false_iff]
        intro hall2
        rw [hall2 m (Nat.lt_succ_self m)] at hpm
        exact Bool.noConfusion hpm
      · have hpm2 : p m = false := by simpa using hpm
        simp only [hpm2, Bool.false_eq_true, if_false, true_iff]
        intro j hj
        rcases Nat.lt_succ_iff_lt_or_eq.mp hj with h | rfl
        · exact hall j h
        · exact hpm2

theorem findFirst_eq_some_iff {p : ℕ → Bool} {n k : ℕ} :
    findFirst p n = some k ↔
      k < n ∧ p k = true ∧ ∀ j, j < k → p j = false := by
  induction n generalizing k with
  | zero => simp [findFirst]
  | succ m ih =>
    simp only [findFirst]
    cases hm : findFirst p m with
    | some k0 =>
      obtain ⟨hk0n, hpk0, hmin⟩ := ih.mp hm
      simp only [Option.some_inj]
      constructor
      · rintro rfl
        exact ⟨Nat.lt_succ_of_lt hk0n, hpk0, hmin⟩
      · rintro ⟨hkn, hpk, hmin2⟩
        rcases Nat.lt_trichotomy k k0 with h | h | h
        · rw [hmin k h] at hpk; exact Bool.noConfusion hpk
        · exact h.symm
        · rw [hmin2 k0 h] at hpk0; exact Bool.noConfusion hpk0
    | none =>
      have hall := findFirst_eq_none_iff.mp hm
      by_cases hpm : p m = true
      · simp only [hpm, if_true, Option.some_inj]
        constructor
        · rintro rfl
          exact ⟨Nat.lt_succ_self m, hpm, hall⟩
        · rintro ⟨hkn, hpk, hmin⟩
          rcases Nat.lt_succ_iff_lt_or_eq.mp hkn with h | rfl
          · rw [hall k h] at hpk; exact Bool.noConfusion hpk
          · rfl
      · have hpm2 : p m = false := by simpa using hpm
        simp only [hpm2, Bool.false_eq_true, if_false, reduceCtorEq, false_iff]
        rintro ⟨hkn, hpk, hmin⟩
        rcases Nat.lt_succ_iff_lt_or_eq.mp hkn with h | rfl
        · rw [hall k h] at hpk; exact Bool.noConfusion hpk
        · rw [hpm2] at hpk; exact Bool.noConfusion hpk

theorem findLast_eq_some_iff {p : ℕ → Bool} {n k : ℕ} :
    findLast p n = some k ↔
      k < n ∧ p k = true ∧ ∀ j, k < j → j < n → p j = false := by
  induction n generalizing k with
  | zero => simp [findLast]
  | succ m ih =>
    simp only [findLast]
    by_cases hpm : p m = true
    · simp only [hpm, if_true, Option.some_inj]
      constructor
      · rintro rfl
        exact ⟨Nat.lt_succ_self m, hpm, fun j hj hjn => by omega⟩
      · rintro ⟨hkn, hpk, hmax⟩
        rcases Nat.lt_succ_iff_lt_or_eq.mp hkn with h | rfl
        · rw [hmax m h (Nat.lt_succ_self m)] at hpm; exact Bool.noConfusion hpm
        · rfl
    · have hpm2 : p m = false := by simpa using hpm
      simp only [hpm2, Bool.false_eq_true, if_false, ih]
      constructor
      · rintro ⟨hkn, hpk, hmax⟩
        refine ⟨Nat.lt_succ_of_lt hkn, hpk, fun j hj hjn => ?_⟩
        rcases Nat.lt_succ_iff_lt_or_eq.mp hjn with h | rfl
        · exact hmax j hj h
        · exact hpm2
      · rintro ⟨hkn, hpk, hmax⟩
        have hkm : k ≠ m := by
          rintro rfl
          rw [hpm2] at hpk; exact Bool.noConfusion hpk
        refine ⟨by omega, hpk, fun j hj hjn => hmax j hj (Nat.lt_succ_of_lt hjn)⟩

theorem getbbox_all {w h : ℕ} {cond : ℕ → ℕ → Bool} (hw : 0 < w) (hh : 0 < h)
    (hall : ∀ x y, x < w → y < h → cond x y = true) :
    getbbox w h cond = some (0, 0, w, h) := by
  have hcol : ∀ x, x < w → (anyBelow h fun y => cond x y) = true := fun x hx =>
    anyBelow_eq_true.mpr ⟨0, hh, hall x 0 hx hh⟩
  have hrow : ∀ y, y < h → (anyBelow w fun x => cond x y) = true := fun y hy =>
    anyBelow_eq_true.mpr ⟨0, hw, hall 0 y hw hy⟩
  simp only [getbbox]
  rw [findFirst_eq_some_iff.mpr ⟨hw, hcol 0 hw, fun j hj => by omega⟩,
    findFirst_eq_some_iff.mpr ⟨hh, hrow 0 hh, fun j hj => by omega⟩,
    findLast_eq_some_iff.mpr
      ⟨Nat.sub_lt hw Nat.one_pos, hcol (w - 1) (Nat.sub_lt hw Nat.one_pos),
        fun j hj hjn => by omega⟩,
    findLast_eq_some_iff.mpr
      ⟨Nat.sub_lt hh Nat.one_pos, hrow (h - 1) (Nat.sub_lt hh Nat.one_pos),
        fun j hj hjn => by omega⟩]
  have hw1 : w - 1 + 1 = w := by omega
  have hh1 : h - 1 + 1 = h := by omega
  simp only [hw1, hh1]

theorem findLast_eq_none_iff {p : ℕ → Bool} {n : ℕ} :
    findLast p n = none ↔ ∀ j, j < n → p j = false := by
  induction n with
  | zero => simp [findLast]
  | succ m ih =>
    simp only [findLast]
    by_cases hpm : p m = true
    · simp only [hpm, if_true, reduceCtorEq, false_iff]
      intro hall
      rw [hall m (Nat.lt_succ_self m)] at hpm
      exact Bool.noConfusion hpm
    · have hpm2 : p m = false := by simpa using hpm
      simp only [hpm2, Bool.false_eq_true, if_false, ih]
      constructor
      · intro hall j hj
        rcases Nat.lt_succ_iff_lt_or_eq.mp hj with h | rfl
        · exact hall j h
        · exact hpm2
      · exact fun hall j hj => hall j (Nat.lt_succ_of_lt hj)

/-- The effective bounding box follows a translation of the
above-threshold alpha support: if the support of B is the support of A
shifted by (dx, dy), the boxes are shifted accordingly (and in particular
have equal dimensions). -/
theorem effectiveBbox_translate {A B : Img} {dx dy : ℕ}
    (hw : dx + A.width ≤ B.width) (hh : dy + A.height ≤ B.height)
    (hne : ∃ x, x < A.width ∧ ∃ y, y < A.height ∧ 10 < (A.px x y).a)
    (htrans : ∀ x, x < B.width → ∀ y, y < B.height →
      (10 < (B.px x y).a ↔
        dx ≤ x ∧ x < dx + A.width ∧ dy ≤ y ∧ y < dy + A.height ∧
          10 < (A.px (x - dx) (y - dy)).a)) :
    ∃ x0 y0 x1 y1,
      _effective_bbox A 10 = some (x0, y0, x1 + 1, y1 + 1) ∧
        _effective_bbox B 10 = some (dx + x0, dy + y0, dx + x1 + 1, dy + y1 + 1) := by
  obtain ⟨xh, hxh, yh, hyh, hah⟩ := hne
  set pA := fun x y => decide (10 < (A.px x y).a) with hpA
  set pB := fun x y => decide (10 < (B.px x y).a) with hpB
  set colA := fun x => anyBelow A.height fun y => pA x y with hcolA
  set rowA := fun y => anyBelow A.width fun x => pA x y with hrowA
  set colB := fun x => anyBelow B.height fun y => pB x y with hcolB
  set rowB := fun y => anyBelow B.width fun x => pB x y with hrowB
  -- the support equivalences for columns and rows of B
  have hcolEq : ∀ x, x < B.width →
      (colB x = true ↔ dx ≤ x ∧ x < dx + A.width ∧ colA (x - dx) = true) := by
    intro x hx
    simp only [hcolB, hcolA, anyBelow_eq_true]
    constructor
    · rintro ⟨y, hy, hp⟩
      simp only [hpB, decide_eq_true_eq] at hp
      obtain ⟨h1, h2, h3, h4, h5⟩ := (htrans x hx y hy).mp hp
      exact ⟨h1, h2, y - dy, by omega, by simp [hpA, h5]⟩
    · rintro ⟨h1, h2, y2, hy2, hp⟩
      simp only [hpA, decide_eq_true_eq] at hp
      refine ⟨dy + y2, by omega, ?_⟩
      simp only [hpB, decide_eq_true_eq]
      refine (htrans x hx (dy + y2) (by omega)).mpr
        ⟨h1, h2, by omega, by omega, ?_⟩
      simpa [Nat.add_sub_cancel_left] using hp
  have hrowEq : ∀ y, y < B.height →
      (rowB y = true ↔ dy ≤ y ∧ y < dy + A.height ∧ rowA (y - dy) = true) := by
    intro y hy
    simp only [hrowB, hrowA, anyBelow_eq_true]
    constructor
    · rintro ⟨x, hx, hp⟩
      simp only [hpB, decide_eq_true_eq] at hp
      obtain ⟨h1, h2, h3, h4, h5⟩ := (htrans x hx y hy).mp hp
      exact ⟨h3, h4, x - dx, by omega, by simp [hpA, h5]⟩
    · rintro ⟨h1, h2, x2, hx2, hp⟩
      simp only [hpA, decide_eq_true_eq] at hp
      refine ⟨dx + x2, by omega, ?_⟩
      simp only [hpB, decide_eq_true_eq]
      refine (htrans (dx + x2) (by omega) y hy).mpr
        ⟨by omega, by omega, h1, h2, ?_⟩
      simpa [Nat.add_sub_cancel_left] using hp
  -- A has a nonempty support, so all four searches on A succeed
  have hcolxh : colA xh = true := by
    simp only [hcolA, anyBelow_eq_true]
    exact ⟨yh, hyh, by simp [hpA, hah]⟩
  have hrowyh : rowA yh = true := by
    simp only [hrowA, anyBelow_eq_true]
    exact ⟨xh, hxh, by simp [hpA, hah]⟩
  obtain ⟨x0, hx0⟩ : ∃ x0, findFirst colA A.width = some x0 := by
    cases hf : findFirst colA A.width with
    | some x0 => exact ⟨x0, rfl⟩
    | none =>
      rw [findFirst_eq_none_iff.mp hf xh hxh] at hcolxh
      exact Bool.noConfusion hcolxh
  obtain ⟨y0, hy0⟩ : ∃ y0, findFirst rowA A.height = some y0 := by
    cases hf : findFirst rowA A.height with
    | some y0 => exact ⟨y0, rfl⟩
    | none =>
      rw [findFirst_eq_none_iff.mp hf yh hyh] at hrowyh
      exact Bool.noConfusion hrowyh
  obtain ⟨x1, hx1⟩ : ∃ x1, findLast colA A.width = some x1 := by
    cases hf : findLast colA A.width with
    | some x1 => exact ⟨x1, rfl⟩
    | none =>
      rw [findLast_eq_none_iff.mp hf xh hxh] at hcolxh
      exact Bool.noConfusion hcolxh
  obtain ⟨y1, hy1⟩ : ∃ y1, findLast rowA A.height = some y1 := by
    cases hf : findLast rowA A.height with
    | some y1 => exact ⟨y1, rfl⟩
    | none =>
      rw [findLast_eq_none_iff.mp hf yh hyh] at hrowyh
      exact Bool.noConfusion hrowyh
  obtain ⟨hx0n, hx0p, hx0min⟩ := findFirst_eq_some_iff.mp hx0
  obtain ⟨hy0n, hy0p, hy0min⟩ := findFirst_eq_some_iff.mp hy0
  obtain ⟨hx1n, hx1p, hx1max⟩ := findLast_eq_some_iff.mp hx1
  obtain ⟨hy1n, hy1p, hy1max⟩ := findLast_eq_some_iff.mp hy1
  -- the four searches on B find the translated bounds
  have hbx0 : findFirst colB B.width = some (dx + x0) := by
    refine findFirst_eq_some_iff.mpr ⟨by omega, ?_, ?_⟩
    · refine (hcolEq (dx + x0) (by omega)).mpr ⟨by omega, by omega, ?_⟩
      simpa [Nat.add_sub_cancel_left] using hx0p
    · intro j hj
      by_contra hc
      have hcj : colB j = true := by
        cases h : colB j with
        | true => rfl
        | false => exact absurd h hc
      obtain ⟨h1, h2, h3⟩ := (hcolEq j (by omega)).mp hcj
      rw [hx0min (j - dx) (by omega)] at h3
      exact Bool.noConfusion h3
  have hby0 : findFirst rowB B.height = some (dy + y0) := by
    refine findFirst_eq_some_iff.mpr ⟨by omega, ?_, ?_⟩
    · refine (hrowEq (dy + y0) (by omega)).mpr ⟨by omega, by omega, ?_⟩
      simpa [Nat.add_sub_cancel_left] using hy0p
    · intro j hj
      by_contra hc
      have hcj : rowB j = true := by
        cases h : rowB j with
        | true => rfl
        | false => exact absurd h hc
      obtain ⟨h1, h2, h3⟩ := (hrowEq j (by omega)).mp hcj
      rw [hy0min (j - dy) (by omega)] at h3
      exact Bool.noConfusion h3
  have hbx1 : findLast colB B.width = some (dx + x1) := by
    refine findLast_eq_some_iff.mpr ⟨by omega, ?_, ?_⟩
    · refine (hcolEq (dx + x1) (by omega)).mpr ⟨by omega, by omega, ?_⟩
      simpa [Nat.add_sub_cancel_left] using hx1p
    · intro j hj hjn
      by_contra hc
      have hcj : colB j = true := by
        cases h : colB j with
        | true => rfl
        | false => exact absurd h hc
      obtain ⟨h1, h2, h3⟩ := (hcolEq j hjn).mp hcj
      rw [hx1max (j - dx) (by omega) (by omega)] at h3
      exact Bool.noConfusion h3
  have hby1 : findLast rowB B.height = some (dy + y1) := by
    refine findLast_eq_some_iff.mpr ⟨by omega, ?_, ?_⟩
    · refine (hrowEq (dy + y1) (by omega)).mpr ⟨by omega, by omega, ?_⟩
      simpa [Nat.add_sub_cancel_left] using hy1p
    · intro j hj hjn
      by_contra hc
      have hcj : rowB j = true := by
        cases h : rowB j with
        | true => rfl
        | false => exact absurd h hc
      obtain ⟨h1, h2, h3⟩ := (hrowEq j hjn).mp hcj
      rw [hy1max (j - dy) (by omega) (by omega)] at h3
      exact Bool.noConfusion h3
  refine ⟨x0, y0, x1, y1, ?_, ?_⟩
  · unfold _effective_bbox
    have hbbA : getbbox A.width A.height
        (fun x y => decide (10 < (A.px x y).a)) = some (x0, y0, x1 + 1, y1 + 1) := by
      simp only [getbbox]
      rw [show (fun x => anyBelow A.height fun y => decide (10 < (A.px x y).a)) = colA
          from rfl,
        show (fun y => anyBelow A.width fun x => decide (10 < (A.px x y).a)) = rowA
          from rfl, hx0, hy0, hx1, hy1]
    rw [hbbA]
  · unfold _effective_bbox
    have hbbB : getbbox B.width B.height
        (fun x y => decide (10 < (B.px x y).a)) =
          some (dx + x0, dy + y0, dx + x1 + 1, dy + y1 + 1) := by
      simp only [getbbox]
      rw [show (fun x => anyBelow B.height fun y => decide (10 < (B.px x y).a)) = colB
          from rfl,
        show (fun y => anyBelow B.width fun x => decide (10 < (B.px x y).a)) = rowB
          from rfl, hbx0, hby0, hbx1, hby1]
    rw [hbbB]

theorem muldiv255_opaque : ∀ c, c ≤ 255 → muldiv255 c 255 = c := by decide

theorem muldiv255_zero (c : ℕ) : muldiv255 c 0 = 0 := by
  simp [muldiv255]

theorem blendCh_opaque {bch tch : ℕ} (h : tch ≤ 255) :
    blendCh 255 bch tch = tch := by
  unfold blendCh
  rw [show (255 - 255 : ℕ) = 0 from rfl, muldiv255_zero, muldiv255_opaque tch h]
  omega

theorem findBestAux_invariant (ext : Ext) (cc tc : Color) (paths : List String) :
    ∀ acc : Option String × ℚ × ProcState,
      0 ≤ acc.2.1 → (acc.1.isSome = true → 0 < acc.2.1) →
        0 ≤ (findBestAux ext cc tc paths acc).2.1 ∧
          ((findBestAux ext cc tc paths acc).1.isSome = true →
            0 < (findBestAux ext cc tc paths acc).2.1) := by
  induction paths with
  | nil => exact fun acc h0 h1 => ⟨h0, h1⟩
  | cons p rest ih =>
    intro acc h0 h1
    simp only [findBestAux]
    cases hop : ext.openImage p with
    | none => exact ih acc h0 h1
    | some bg =>
      dsimp only
      by_cases hs :
          acc.2.1 <
            _color_distance ext cc (compute_dominant_color ext acc.2.2 bg false).1 -
              _color_distance ext tc (compute_dominant_color ext acc.2.2 bg false).1 *
                (1 / 2)
      · rw [if_pos hs]
        exact ih _ (le_of_lt (lt_of_le_of_lt h0 hs))
          (fun _ => lt_of_le_of_lt h0 hs)
      · rw [if_neg hs]
        exact ih _ h0 h1

theorem fitGeometry_contained (canvasW canvasH clothW clothH : ℕ)
    (vof hof scale : ℚ) (hcw : 0 < clothW) (hch : 0 < clothH)
    (hs0 : 0 < scale) (hs1 : scale ≤ 1) :
    0 ≤ (fitGeometry canvasW canvasH clothW clothH vof hof scale).finalX ∧
      0 ≤ (fitGeometry canvasW canvasH clothW clothH vof hof scale).finalY ∧
      (fitGeometry canvasW canvasH clothW clothH vof hof scale).finalX +
          (fitGeometry canvasW canvasH clothW clothH vof hof scale).newW ≤
        (canvasW : ℤ) ∧
      (fitGeometry canvasW canvasH clothW clothH vof hof scale).finalY +
          (fitGeometry canvasW canvasH clothW clothH vof hof scale).newH ≤
        (canvasH : ℤ) := by
  have hWne : (clothW : ℚ) ≠ 0 := Nat.cast_ne_zero.mpr (by omega)
  have hHne : (clothH : ℚ) ≠ 0 := Nat.cast_ne_zero.mpr (by omega)
  have hWpos : (0 : ℚ) < (clothW : ℚ) := by exact_mod_cast hcw
  have hHpos : (0 : ℚ) < (clothH : ℚ) := by exact_mod_cast hch
  have hsW : (0 : ℚ) ≤ (canvasW : ℚ) / (clothW : ℚ) :=
    div_nonneg (Nat.cast_nonneg _) (Nat.cast_nonneg _)
  have hsH : (0 : ℚ) ≤ (canvasH : ℚ) / (clothH : ℚ) :=
    div_nonneg (Nat.cast_nonneg _) (Nat.cast_nonneg _)
  have hminW : min ((canvasW : ℚ) / clothW) ((canvasH : ℚ) / clothH) ≤
      (canvasW : ℚ) / clothW := min_le_left _ _
  have hminH : min ((canvasW : ℚ) / clothW) ((canvasH : ℚ) / clothH) ≤
      (canvasH : ℚ) / clothH := min_le_right _ _
  have hmin0 : (0 : ℚ) ≤ min ((canvasW : ℚ) / clothW) ((canvasH : ℚ) / clothH) :=
    le_min hsW hsH
  -- the truncated sizes are between 0 and the canvas dimensions
  have hqW0 : (0 : ℚ) ≤
      (clothW : ℚ) * (min ((canvasW : ℚ) / clothW) ((canvasH : ℚ) / clothH) * scale) :=
    mul_nonneg (Nat.cast_nonneg _) (mul_nonneg hmin0 (le_of_lt hs0))
  have hqH0 : (0 : ℚ) ≤
      (clothH : ℚ) * (min ((canvasW : ℚ) / clothW) ((canvasH : ℚ) / clothH) * scale) :=
    mul_nonneg (Nat.cast_nonneg _) (mul_nonneg hmin0 (le_of_lt hs0))
  have hqWle :
      (clothW : ℚ) * (min ((canvasW : ℚ) / clothW) ((canvasH : ℚ) / clothH) * scale) ≤
        (canvasW : ℚ) := by
    calc (clothW : ℚ) * (min ((canvasW : ℚ) / clothW) ((canvasH : ℚ) / clothH) * scale)
        ≤ (clothW : ℚ) * (((canvasW : ℚ) / clothW) * scale) := by
          apply mul_le_mul_of_nonneg_left
            (mul_le_mul_of_nonneg_right hminW (le_of_lt hs0)) (Nat.cast_nonneg _)
      _ = (canvasW : ℚ) * scale := by
          field_simp
      _ ≤ (canvasW : ℚ) * 1 :=
          mul_le_mul_of_nonneg_left hs1 (Nat.cast_nonneg _)
      _ = (canvasW : ℚ) := mul_one _
  have hqHle :
      (clothH : ℚ) * (min ((canvasW : ℚ) / clothW) ((canvasH : ℚ) / clothH) * scale) ≤
        (canvasH : ℚ) := by
    calc (clothH : ℚ) * (min ((canvasW : ℚ) / clothW) ((canvasH : ℚ) / clothH) * scale)
        ≤ (clothH : ℚ) * (((canvasH : ℚ) / clothH) * scale) := by
          apply mul_le_mul_of_nonneg_left
            (mul_le_mul_of_nonneg_right hminH (le_of_lt hs0)) (Nat.cast_nonneg _)
      _ = (canvasH : ℚ) * scale := by
          field_simp
      _ ≤ (canvasH : ℚ) * 1 :=
          mul_le_mul_of_nonneg_left hs1 (Nat.cast_nonneg _)
      _ = (canvasH : ℚ) := mul_one _
  simp only [fitGeometry]
  rw [pyInt_of_nonneg hqW0, pyInt_of_nonneg hqH0]
  have hW0 : (0 : ℤ) ≤
      ⌊(clothW : ℚ) * (min ((canvasW : ℚ) / clothW) ((canvasH : ℚ) / clothH) * scale)⌋ :=
    Int.le_floor.mpr (by exact_mod_cast hqW0)
  have hH0 : (0 : ℤ) ≤
      ⌊(clothH : ℚ) * (min ((canvasW : ℚ) / clothW) ((canvasH : ℚ) / clothH) * scale)⌋ :=
    Int.le_floor.mpr (by exact_mod_cast hqH0)
  have hWle :
      ⌊(clothW : ℚ) * (min ((canvasW : ℚ) / clothW) ((canvasH : ℚ) / clothH) * scale)⌋ ≤
        (canvasW : ℤ) := by
    have := Int.floor_le_floor hqWle
    rwa [Int.floor_natCast] at this
  have hHle :
      ⌊(clothH : ℚ) * (min ((canvasW : ℚ) / clothW) ((canvasH : ℚ) / clothH) * scale)⌋ ≤
        (canvasH : ℤ) := by
    have := Int.floor_le_floor hqHle
    rwa [Int.floor_natCast] at this
  refine ⟨le_max_left _ _, le_max_left _ _, ?_, ?_⟩
  · have h1 : min
        (((canvasW : ℤ) -
              ⌊(clothW : ℚ) *
                  (min ((canvasW : ℚ) / clothW) ((canvasH : ℚ) / clothH) * scale)⌋).fdiv 2 +
            pyInt (hof * (canvasW : ℚ)))
        ((canvasW : ℤ) -
          ⌊(clothW : ℚ) * (min ((canvasW : ℚ) / clothW) ((canvasH : ℚ) / clothH) * scale)⌋) ≤
        (canvasW : ℤ) -
          ⌊(clothW : ℚ) * (min ((canvasW : ℚ) / clothW) ((canvasH : ℚ) / clothH) * scale)⌋ :=
      min_le_right _ _
    have h2 := max_le h1 (by omega : (0 : ℤ) ≤ (canvasW : ℤ) -
      ⌊(clothW : ℚ) * (min ((canvasW : ℚ) / clothW) ((canvasH : ℚ) / clothH) * scale)⌋)
    omega
  · have h1 : min
        (((canvasH : ℤ) -
              ⌊(clothH : ℚ) *
                  (min ((canvasW : ℚ) / clothW) ((canvasH : ℚ) / clothH) * scale)⌋).fdiv 2 +
            pyInt (vof * (canvasH : ℚ)))
        ((canvasH : ℤ) -
          ⌊(clothH : ℚ) * (min ((canvasW : ℚ) / clothW) ((canvasH : ℚ) / clothH) * scale)⌋) ≤
        (canvasH : ℤ) -
          ⌊(clothH : ℚ) * (min ((canvasW : ℚ) / clothW) ((canvasH : ℚ) / clothH) * scale)⌋ :=
      min_le_right _ _
    have h2 := max_le h1 (by omega : (0 : ℤ) ≤ (canvasH : ℤ) -
      ⌊(clothH : ℚ) * (min ((canvasW : ℚ) / clothW) ((canvasH : ℚ) / clothH) * scale)⌋)
    omega

/-!
Concrete objects for witnesses and counterexamples.
-/

/-- Path literal for the first project image. -/
def pathA : String := "a.png"

/-- Path literal for the second project image. -/
def pathB : String := "b.png"

/-- A two-image project with empty processed records. -/
def projC4 : Project :=
  { clothingImages := [(pathA, constImg 4 4 redA), (pathB, constImg 4 4 cyanA)]
    processedImages := [] }

/-- Backend state: solid background mode, no background candidates, fresh
processor. -/
def bstC4 : BackendSt := { useSolidBg := true, backgrounds := [], proc := initState }

/-- A progress callback that asks for cancellation from the very first call
(as the UI cancel button does by returning False). -/
def cancelRequestedCb : ℕ → ℕ → String → Bool := fun _ _ _ => false

/-- A 2400×1200 input whose longest side exceeds the 1200 resize bound. -/
def imgBig : Img := constImg 2400 1200 redA

/-!
Claim theorems.
-/

/-- C2 counterexample: the claim quantifies over every positive scale, but at
scale 2 (with vof = hof = 0, both inside [-1, 1]) the resized 500×500 subject
on the 600×800 vertical canvas gets width 1200 and clamped position 0, so
position plus size exceeds the canvas width. -/
theorem c2_counterexample :
    0 < (2 : ℚ) ∧ (-1 : ℚ) ≤ 0 ∧ (0 : ℚ) ≤ 1 ∧
      (600 : ℤ) <
        (fitGeometry 600 800 500 500 0 0 2).finalX +
          (fitGeometry 600 800 500 500 0 0 2).newW := by
  refine ⟨by norm_num, by norm_num, by norm_num, by decide⟩

/-- C2 (amended): for every vof and hof (in particular any in [-1, 1]) and
every scale with 0 < scale ≤ 1, the paste rectangle computed by
`fit_clothing` — position (finalX, finalY) with size (newW, newH) — is fully
contained in the canvas: coordinates are nonnegative and coordinate plus
size does not exceed the canvas dimension on either axis.  (For scale > 1
the clamped position is still nonnegative but the subject can exceed the
canvas, see the counterexample.) -/
theorem c2_offset_clamping (canvasW canvasH clothW clothH : ℕ)
    (vof hof scale : ℚ) (hcw : 0 < clothW) (hch : 0 < clothH)
    (hs0 : 0 < scale) (hs1 : scale ≤ 1) :
    0 ≤ (fitGeometry canvasW canvasH clothW clothH vof hof scale).finalX ∧
      0 ≤ (fitGeometry canvasW canvasH clothW clothH vof hof scale).finalY ∧
      (fitGeometry canvasW canvasH clothW clothH vof hof scale).finalX +
          (fitGeometry canvasW canvasH clothW clothH vof hof scale).newW ≤
        (canvasW : ℤ) ∧
      (fitGeometry canvasW canvasH clothW clothH vof hof scale).finalY +
          (fitGeometry canvasW canvasH clothW clothH vof hof scale).newH ≤
        (canvasH : ℤ) :=
  fitGeometry_contained canvasW canvasH clothW clothH vof hof scale hcw hch hs0 hs1

/-- Witness for C2 at the default scale 0.85 on the vertical canvas. -/
theorem c2_offset_clamping_witness :
    0 ≤ (fitGeometry 600 800 500 500 0 0 (17 / 20)).finalX ∧
      0 ≤ (fitGeometry 600 800 500 500 0 0 (17 / 20)).finalY ∧
      (fitGeometry 600 800 500 500 0 0 (17 / 20)).finalX +
          (fitGeometry 600 800 500 500 0 0 (17 / 20)).newW ≤ (600 : ℤ) ∧
      (fitGeometry 600 800 500 500 0 0 (17 / 20)).finalY +
          (fitGeometry 600 800 500 500 0 0 (17 / 20)).newH ≤ (800 : ℤ) :=
  c2_offset_clamping 600 800 500 500 0 0 (17 / 20) (by norm_num) (by norm_num)
    (by norm_num) (by norm_num)

/-- C3: the claim says a failing segmentation call always yields an RGBA
image with the dimensions of the input.  On a 2400×1200 input the code first
downscales to 1200×600 rebinding the local variable, so when the
segmentation call raises, the except clause returns the downscaled image:
the result is 1200×600, not 2400×1200. -/
theorem c3_fallback_dimensions :
    (remove_background extFail imgBig 1200).width = 1200 ∧
      (remove_background extFail imgBig 1200).height = 600 ∧
      imgBig.width = 2400 ∧ imgBig.height = 1200 := by
  refine ⟨by decide, by decide, rfl, rfl⟩

/-- C4: the batch worker never consults any cancellation flag: its result is
literally independent of the progress callback (the code discards the
callback return value), and with a callback requesting cancellation from the
first call it still processes both images of a two-image project and reports
success, never a cancelled status. -/
theorem c4_worker_ignores_cancellation :
    (_process_project_images_worker extC bstC4 projC4 cancelRequestedCb).1 = true ∧
      ((_process_project_images_worker extC bstC4 projC4
            cancelRequestedCb).2.2.1.processedImages.map
          fun e => e.processed.isSome) = [true, true] ∧
      _process_project_images_worker extC bstC4 projC4 cancelRequestedCb =
        _process_project_images_worker extC bstC4 projC4 fun _ _ _ => true := by
  refine ⟨by decide, by decide, rfl⟩

/-- C9 counterexample: a uniform red subject and the candidate list
[cyan, red].  The per-image selector maximises the contrast score and picks
the cyan background; the per-project selector on the singleton list
minimises the distance to the average dominant colour and picks the red
background.  The two selections differ, refuting the claimed agreement. -/
theorem c9_counterexample :
    (find_best_background extC initState (constImg 4 4 redA)
        [pathCyan, pathRed]).1 = some pathCyan ∧
      (find_best_background_for_project extC initState [constImg 4 4 redA]
          [pathCyan, pathRed]).1 = some pathRed ∧
      (find_best_background extC initState (constImg 4 4 redA)
          [pathCyan, pathRed]).1 ≠
        (find_best_background_for_project extC initState [constImg 4 4 redA]
            [pathCyan, pathRed]).1 := by
  refine ⟨by decide, by decide, by decide⟩

/-- C9 (amended): what does hold is that on a singleton subject list the
project-average dominant colour is the dominant colour of that subject, so
`find_best_background_for_project` coincides with
`_find_best_background_by_color` at the dominant colour of the single
subject.  It does not coincide with `find_best_background`, whose scoring
directly maximises contrast instead of minimising distance to the average
(see the counterexample). -/
theorem c9_singleton_average (ext : Ext) (st : ProcState) (img : Img)
    (paths : List String) :
    find_best_background_for_project ext st [img] paths =
      _find_best_background_by_color ext
        (compute_dominant_color ext st img true).2
        (compute_dominant_color ext st img true).1 paths := by
  simp only [find_best_background_for_project, List.foldl_cons, List.foldl_nil,
    List.nil_append, List.isEmpty_cons, List.map_cons, List.map_nil,
    List.sum_cons, List.sum_nil, List.length_cons, List.length_nil,
    Bool.false_eq_true, if_false, Nat.add_zero, Nat.zero_add, Nat.div_one]

/-- The model resize of `extC` sends any image that is constant on its
bounds to the constant image of the requested size. -/
theorem extC_resize_const (img : Img) (w h : ℕ) (c : RGBA)
    (h1 : 0 < img.width) (h2 : 0 < img.height) (h3 : 0 < w) (h4 : 0 < h)
    (hall : ∀ x y, x < img.width → y < img.height → img.px x y = c) :
    extC.resize img w h = some (constImg w h c) := by
  show some (constImg w h (pxTopLeft img)) = some (constImg w h c)
  rw [pxTopLeft, if_pos ⟨h1, h2⟩, hall 0 0 h1 h2]

/-- The model resize of `extC` depends only on in-bounds pixel content. -/
theorem extC_resize_respects (X Y : Img) (w h : ℕ) (hs : sameContent X Y) :
    extC.resize X w h = extC.resize Y w h := by
  obtain ⟨hw, hh, hpx⟩ := hs
  show some (constImg w h (pxTopLeft X)) = some (constImg w h (pxTopLeft Y))
  have : pxTopLeft X = pxTopLeft Y := by
    unfold pxTopLeft
    by_cases hpos : 0 < X.width ∧ 0 < X.height
    · rw [if_pos hpos, if_pos (by omega : 0 < Y.width ∧ 0 < Y.height),
        hpx 0 hpos.1 0 hpos.2]
    · rw [if_neg hpos, if_neg (by omega : ¬(0 < Y.width ∧ 0 < Y.height))]
  rw [this]

/-- C6: on a cache miss, `compute_dominant_color` downsamples to 30×30 and
returns the per-channel integer average over the included pixels of the
downsampled grid, a pixel being excluded exactly when the
ignore-transparent flag is set and its alpha is at most 128; when no pixel
qualifies it returns (128,128,128); and when the downscale step fails
internally it also returns (128,128,128) instead of raising (the model is a
total function, so no exception can escape). -/
theorem c6_dominant_color_average (ext : Ext) (st : ProcState) (img : Img)
    (it : Bool)
    (hlk : lookupCache st.domCache (cacheKey ext img it) = none) :
    (ext.resize img 30 30 = none →
      (compute_dominant_color ext st img it).1 = (128, 128, 128)) ∧
      ∀ small, ext.resize img 30 30 = some small →
        (compute_dominant_color ext st img it).1 =
          if ((getdata small).filter fun p => !it || decide (128 < p.a)).length = 0
          then (128, 128, 128)
          else
            ((((getdata small).filter fun p => !it || decide (128 < p.a)).map
                  (·.r)).sum /
                ((getdata small).filter fun p => !it || decide (128 < p.a)).length,
              (((getdata small).filter fun p => !it || decide (128 < p.a)).map
                  (·.g)).sum /
                ((getdata small).filter fun p => !it || decide (128 < p.a)).length,
              (((getdata small).filter fun p => !it || decide (128 < p.a)).map
                  (·.b)).sum /
                ((getdata small).filter fun p => !it || decide (128 < p.a)).length) := by
  constructor
  · intro hres
    rw [cdc_fail hlk hres]
  · intro small hres
    rw [cdc_miss hlk hres]
    show avgColor it small = _
    unfold avgColor
    rw [sumPixels_eq]

/-- Witness for C6: a uniform opaque red 2×2 image on the fresh processor
state averages to pure red. -/
theorem c6_dominant_color_average_witness :
    (compute_dominant_color extC initState (constImg 2 2 redA) true).1 =
      (255, 0, 0) := by
  have h := (c6_dominant_color_average extC initState (constImg 2 2 redA) true
    rfl).2 (constImg 30 30 redA) rfl
  rw [h]
  decide

/-- C7: `_complementary_color` is a pure function of its input colour; for
gray inputs (R = G = B) it returns 255 minus the channel replicated; for
non-gray inputs it equals the HSV round trip that rotates the hue by 180
degrees (one half in normalised hue) while keeping the saturation and value
computed from the input; and on each fully saturated primary colour applying
it twice returns exactly the original colour. -/
theorem c7_complementary_color_spec :
    (∀ r : ℕ, r ≤ 255 →
        _complementary_color (r, r, r) = (255 - r, 255 - r, 255 - r)) ∧
      (∀ c : Color,
        max c.1 (max c.2.1 c.2.2) - min c.1 (min c.2.1 c.2.2) ≠ 0 →
          _complementary_color c =
            hsv_to_rgb (qmod (hueOf c / 6 + 1 / 2) 1) (saturationOf c)
              (valueOf c)) ∧
      _complementary_color (_complementary_color (255, 0, 0)) = (255, 0, 0) ∧
      _complementary_color (_complementary_color (0, 255, 0)) = (0, 255, 0) ∧
      _complementary_color (_complementary_color (0, 0, 255)) = (0, 0, 255) := by
  refine ⟨?_, ?_, by decide, by decide, by decide⟩
  · intro r hr
    simp [_complementary_color]
  · intro c hne
    simp only [_complementary_color]
    rw [if_neg hne]

/-- Witness for C7: the gray case at 7 and the HSV equation at (10,20,30). -/
theorem c7_complementary_color_spec_witness :
    _complementary_color (7, 7, 7) = (248, 248, 248) ∧
      _complementary_color (10, 20, 30) =
        hsv_to_rgb (qmod (hueOf (10, 20, 30) / 6 + 1 / 2) 1)
          (saturationOf (10, 20, 30)) (valueOf (10, 20, 30)) :=
  ⟨c7_complementary_color_spec.1 7 (by norm_num),
    c7_complementary_color_spec.2.1 (10, 20, 30) (by decide)⟩

/-- C8: for a resize that depends only on pixel content, calling
`compute_dominant_color` twice on pixel-identical images (equal dimensions
and in-bounds pixels, possibly distinct Lean functions, playing the role of
distinct in-memory objects) returns the same colour, and the two calls
together grow the cache by at most one entry: the cache key is the content
hash plus size and flag, not object identity, so the second call hits the
entry stored by the first. -/
theorem c8_cache_content_keyed (ext : Ext) (st : ProcState) (A B : Img)
    (it : Bool)
    (hresp : ∀ X Y w h, sameContent X Y → ext.resize X w h = ext.resize Y w h)
    (hsame : sameContent A B) :
    (compute_dominant_color ext (compute_dominant_color ext st A it).2 B it).1 =
        (compute_dominant_color ext st A it).1 ∧
      (compute_dominant_color ext
            (compute_dominant_color ext st A it).2 B it).2.domCache.length ≤
        st.domCache.length + 1 := by
  have hkey : cacheKey ext B it = cacheKey ext A it := (cacheKey_congr hsame).symm
  cases hlk : lookupCache st.domCache (cacheKey ext A it) with
  | some c =>
    have hlkB : lookupCache st.domCache (cacheKey ext B it) = some c := by
      rw [hkey]; exact hlk
    rw [cdc_hit hlk]
    dsimp only
    rw [cdc_hit hlkB]
    exact ⟨rfl, by dsimp only; omega⟩
  | none =>
    cases hres : ext.resize A 30 30 with
    | none =>
      have hresB : ext.resize B 30 30 = none := by
        rw [← hresp A B 30 30 hsame]; exact hres
      have hlkB : lookupCache st.domCache (cacheKey ext B it) = none := by
        rw [hkey]; exact hlk
      rw [cdc_fail hlk hres]
      dsimp only
      rw [cdc_fail hlkB hresB]
      exact ⟨rfl, by dsimp only; omega⟩
    | some small =>
      rw [cdc_miss hlk hres]
      dsimp only
      have hlkB : lookupCache
          (insertTrim st.domCache (cacheKey ext A it) (avgColor it small))
          (cacheKey ext B it) = some (avgColor it small) := by
        rw [hkey]; exact lookup_insertTrim_self hlk
      rw [cdc_hit hlkB]
      exact ⟨rfl, insertTrim_length_le _ _ _⟩

/-- Witness for C8: two 2×2 uniform red images whose pixel functions differ
out of bounds (distinct objects, identical content). -/
theorem c8_cache_content_keyed_witness :
    (compute_dominant_color extC
          (compute_dominant_color extC initState (constImg 2 2 redA) true).2
          (Img.mk 2 2 fun x y =>
            if x < 2 ∧ y < 2 then redA else ⟨9, 9, 9, 9⟩) true).1 =
        (compute_dominant_color extC initState (constImg 2 2 redA) true).1 ∧
      (compute_dominant_color extC
            (compute_dominant_color extC initState (constImg 2 2 redA) true).2
            (Img.mk 2 2 fun x y =>
              if x < 2 ∧ y < 2 then redA else ⟨9, 9, 9, 9⟩)
            true).2.domCache.length ≤
        initState.domCache.length + 1 :=
  c8_cache_content_keyed extC initState (constImg 2 2 redA)
    (Img.mk 2 2 fun x y => if x < 2 ∧ y < 2 then redA else ⟨9, 9, 9, 9⟩) true
    extC_resize_respects (by decide)

/-- C10: the per-image background selector starts from best score 0 and
keeps a candidate only on a strict improvement, so it returns a path only
when the final best score — that of the returned candidate — is strictly
positive; a uniform red subject with a single loadable uniform red candidate
(dominant colour equal to the subject, score 0 − d/2 ≤ 0) therefore yields
none; and `fit_clothing` called with no background image falls back to the
solid complementary-colour canvas even when use_solid_bg is false. -/
theorem c10_positive_score_gate :
    (∀ (ext : Ext) (st : ProcState) (clothing : Img) (paths : List String),
        (find_best_background ext st clothing paths).1.isSome = true →
          0 <
            (findBestAux ext (compute_dominant_color ext st clothing true).1
                (_complementary_color
                  (compute_dominant_color ext st clothing true).1)
                paths
                (none, 0,
                  (compute_dominant_color ext st clothing true).2)).2.1) ∧
      ((find_best_background extC initState (constImg 4 4 redA) [pathRed]).1 =
          none ∧
        (extC.openImage pathRed).isSome = true) ∧
      ∀ (ext : Ext) (st : ProcState) (clothing : Img) (canvasW canvasH : ℕ),
        (canvasFor ext st false none clothing canvasW canvasH).1 =
          some (constImg canvasW canvasH
            (rgbaOfColor (_complementary_color
              (compute_dominant_color ext st clothing true).1))) := by
  refine ⟨?_, ⟨by decide, by decide⟩, fun ext st clothing cw ch => rfl⟩
  intro ext st clothing paths hsome
  exact (findBestAux_invariant ext
      (compute_dominant_color ext st clothing true).1
      (_complementary_color (compute_dominant_color ext st clothing true).1)
      paths
      (none, 0, (compute_dominant_color ext st clothing true).2)
      le_rfl (by intro h; exact Bool.noConfusion h)).2 hsome

/-- Witness for C10: on the singleton cyan candidate the selector returns a
path, and the final best score is strictly positive. -/
theorem c10_positive_score_gate_witness :
    0 <
      (findBestAux extC
          (compute_dominant_color extC initState (constImg 4 4 redA) true).1
          (_complementary_color
            (compute_dominant_color extC initState (constImg 4 4 redA) true).1)
          [pathCyan]
          (none, 0,
            (compute_dominant_color extC initState (constImg 4 4 redA)
                true).2)).2.1 :=
  c10_positive_score_gate.1 extC initState (constImg 4 4 redA) [pathCyan]
    (by decide)

/-- C5: for two subjects whose above-threshold alpha support agrees up to a
translation — the same opaque content with different amounts of fully
transparent (alpha at most 10) padding around it — the effective bounding
box has the same dimensions, so the cropped subject dimensions and hence
the whole scale computation of `fit_clothing` (the resized subject size and
paste position) are identical: padding never enters the scale computation. -/
theorem c5_padding_invariance (A B : Img) (dx dy : ℕ)
    (hw : dx + A.width ≤ B.width) (hh : dy + A.height ≤ B.height)
    (hne : ∃ x, x < A.width ∧ ∃ y, y < A.height ∧ 10 < (A.px x y).a)
    (htrans : ∀ x, x < B.width → ∀ y, y < B.height →
      (10 < (B.px x y).a ↔
        dx ≤ x ∧ x < dx + A.width ∧ dy ≤ y ∧ y < dy + A.height ∧
          10 < (A.px (x - dx) (y - dy)).a)) :
    (croppedClothing B).width = (croppedClothing A).width ∧
      (croppedClothing B).height = (croppedClothing A).height ∧
      ∀ (canvasW canvasH : ℕ) (vof hof scale : ℚ),
        fitGeometry canvasW canvasH (croppedClothing B).width
            (croppedClothing B).height vof hof scale =
          fitGeometry canvasW canvasH (croppedClothing A).width
            (croppedClothing A).height vof hof scale := by
  obtain ⟨x0, y0, x1, y1, hA, hB⟩ := effectiveBbox_translate hw hh hne htrans
  have hwidth : (croppedClothing B).width = (croppedClothing A).width := by
    unfold croppedClothing
    rw [hA, hB]
    show (dx + x1 + 1) - (dx + x0) = (x1 + 1) - x0
    omega
  have hheight : (croppedClothing B).height = (croppedClothing A).height := by
    unfold croppedClothing
    rw [hA, hB]
    show (dy + y1 + 1) - (dy + y0) = (y1 + 1) - y0
    omega
  exact ⟨hwidth, hheight, fun cw ch vof hof scale => by rw [hwidth, hheight]⟩

/-- Witness for C5: a 10×10 opaque square, bare versus centred in a 30×30
fully transparent frame. -/
theorem c5_padding_invariance_witness :
    (croppedClothing (Img.mk 30 30 fun x y =>
          if 10 ≤ x ∧ x < 20 ∧ 10 ≤ y ∧ y < 20 then redA
          else ⟨0, 0, 0, 0⟩)).width =
        (croppedClothing (constImg 10 10 redA)).width ∧
      (croppedClothing (Img.mk 30 30 fun x y =>
            if 10 ≤ x ∧ x < 20 ∧ 10 ≤ y ∧ y < 20 then redA
            else ⟨0, 0, 0, 0⟩)).height =
        (croppedClothing (constImg 10 10 redA)).height := by
  have h := c5_padding_invariance (constImg 10 10 redA)
    (Img.mk 30 30 fun x y =>
      if 10 ≤ x ∧ x < 20 ∧ 10 ≤ y ∧ y < 20 then redA else ⟨0, 0, 0, 0⟩)
    10 10 (by decide) (by decide) (by decide) (by decide)
  exact ⟨h.1, h.2.1⟩

/-- Unfolding lemma for `fit_clothing` with vertical canvas, zero rotation
and a canvas construction that succeeds: the remaining computation is the
crop, scale-and-clamp and paste stages. -/
theorem fit_clothing_no_rotation_some
    (ext : Ext) (st : ProcState) (ci : Img) (bg : Option Img)
    (vof hof scale : ℚ) (useS : Bool) (canvas : Img) (st1 : ProcState)
    (hc : canvasFor ext st useS bg ci st.canvasWidthV st.canvasHeightV =
      (some canvas, st1)) :
    fit_clothing ext st ci bg vof hof scale false useS 0 =
      (if (croppedClothing ci).width = 0 ∨ (croppedClothing ci).height = 0 then
        (constImg st.canvasWidthV st.canvasHeightV ⟨200, 200, 200, 255⟩, st1)
      else
        let geo := fitGeometry st.canvasWidthV st.canvasHeightV
          (croppedClothing ci).width (croppedClothing ci).height vof hof scale
        if geo.newW < 0 ∨ geo.newH < 0 then
          (constImg st.canvasWidthV st.canvasHeightV ⟨200, 200, 200, 255⟩, st1)
        else
          match ext.resize (croppedClothing ci) geo.newW.toNat geo.newH.toNat with
          | none => (constImg st.canvasWidthV st.canvasHeightV ⟨200, 200, 200, 255⟩, st1)
          | some resized => (pasteMask canvas resized geo.finalX geo.finalY, st1)) := by
  unfold fit_clothing
  rw [if_neg (show ¬((0 : ℚ) ≠ 0) by norm_num)]
  simp only [Bool.false_eq_true, if_false]
  rw [hc]

/-- C1: on a fresh processor with the default vertical 600×800 canvas, a
fully opaque uniform red 500×500 subject composited with vof = hof = 0,
scale 1, vertical orientation, solid background, zero rotation, against any
content-respecting constant-preserving resize, yields a 600×800 image whose
pixels are the red square scaled to 600×600 pasted at x = 0, y = 100, with
every pixel outside the square equal to the complementary colour of the red
dominant colour, the cyan (0,255,255). -/
theorem c1_red_square_end_to_end (ext : Ext)
    (hconst : ∀ (img : Img) (w h : ℕ) (c : RGBA), 0 < img.width → 0 < img.height →
      0 < w → 0 < h → (∀ x y, x < img.width → y < img.height → img.px x y = c) →
      ext.resize img w h = some (constImg w h c)) :
    (fit_clothing ext initState (constImg 500 500 redA) none 0 0 1
        false true 0).1.width = 600 ∧
      (fit_clothing ext initState (constImg 500 500 redA) none 0 0 1
          false true 0).1.height = 800 ∧
      ∀ x y, x < 600 → y < 800 →
        (fit_clothing ext initState (constImg 500 500 redA) none 0 0 1
            false true 0).1.px x y =
          if 100 ≤ y ∧ y < 700 then redA else cyanA := by
  have h30 : ext.resize (constImg 500 500 redA) 30 30 = some (constImg 30 30 redA) :=
    hconst _ 30 30 redA (by decide) (by decide) (by decide) (by decide)
      (fun x y _ _ => rfl)
  have hc1 : (compute_dominant_color ext initState (constImg 500 500 redA) true).1 =
      (255, 0, 0) := by
    rw [@cdc_miss ext initState (constImg 500 500 redA) true (constImg 30 30 redA)
      rfl h30]
    show avgColor true (constImg 30 30 redA) = (255, 0, 0)
    decide
  have hcanvas : canvasFor ext initState true none (constImg 500 500 redA)
      initState.canvasWidthV initState.canvasHeightV =
      (some (constImg 600 800 cyanA),
        (compute_dominant_color ext initState (constImg 500 500 redA) true).2) := by
    unfold canvasFor
    simp only [Option.isNone_none, Bool.or_true, if_true]
    rw [hc1]
    rfl
  have hbb : _effective_bbox (constImg 500 500 redA) 10 = some (0, 0, 500, 500) := by
    decide
  have hcrop : croppedClothing (constImg 500 500 redA) = constImg 500 500 redA := by
    rw [show croppedClothing (constImg 500 500 redA) =
        (match _effective_bbox (constImg 500 500 redA) 10 with
        | some box => crop (constImg 500 500 redA) box
        | none => constImg 500 500 redA) from rfl, hbb]
    rfl
  have hgeo : fitGeometry 600 800 500 500 0 0 1 = ⟨600, 600, 0, 100⟩ := by decide
  have hres600 : ext.resize (constImg 500 500 redA) 600 600 =
      some (constImg 600 600 redA) :=
    hconst _ 600 600 redA (by decide) (by decide) (by decide) (by decide)
      (fun x y _ _ => rfl)
  have hmain : (fit_clothing ext initState (constImg 500 500 redA) none 0 0 1
      false true 0).1 =
      pasteMask (constImg 600 800 cyanA) (constImg 600 600 redA) 0 100 := by
    rw [fit_clothing_no_rotation_some ext initState (constImg 500 500 redA) none
      0 0 1 true _ _ hcanvas, hcrop]
    simp only [show (constImg 500 500 redA).width = 500 from rfl,
      show (constImg 500 500 redA).height = 500 from rfl,
      show initState.canvasWidthV = 600 from rfl,
      show initState.canvasHeightV = 800 from rfl, hgeo]
    rw [if_neg (by norm_num : ¬((500 : ℕ) = 0 ∨ (500 : ℕ) = 0))]
    rw [if_neg (by norm_num : ¬((600 : ℤ) < 0 ∨ (600 : ℤ) < 0)),
      show ((600 : ℤ)).toNat = 600 from rfl, hres600]
  refine ⟨by rw [hmain]; rfl, by rw [hmain]; rfl, ?_⟩
  intro x y hx hy
  rw [hmain]
  simp only [pasteMask, constImg]
  split_ifs with h1 h2
  · decide
  · exfalso; omega
  · exfalso; omega
  · rfl

/-- Witness for C1 at the concrete external model: sampled pixels above, on
and below the pasted square. -/
theorem c1_red_square_end_to_end_witness :
    (fit_clothing extC initState (constImg 500 500 redA) none 0 0 1
        false true 0).1.width = 600 ∧
      (fit_clothing extC initState (constImg 500 500 redA) none 0 0 1
          false true 0).1.height = 800 ∧
      (fit_clothing extC initState (constImg 500 500 redA) none 0 0 1
          false true 0).1.px 5 50 = cyanA ∧
      (fit_clothing extC initState (constImg 500 500 redA) none 0 0 1
          false true 0).1.px 5 100 = redA ∧
      (fit_clothing extC initState (constImg 500 500 redA) none 0 0 1
          false true 0).1.px 599 699 = redA ∧
      (fit_clothing extC initState (constImg 500 500 redA) none 0 0 1
          false true 0).1.px 5 700 = cyanA := by
  have h := c1_red_square_end_to_end extC extC_resize_const
  refine ⟨h.1, h.2.1, ?_, ?_, ?_, ?_⟩
  · have h2 := h.2.2 5 50 (by norm_num) (by norm_num)
    rw [if_neg (by omega)] at h2
    exact h2
  · have h2 := h.2.2 5 100 (by norm_num) (by norm_num)
    rw [if_pos (by omega)] at h2
    exact h2
  · have h2 := h.2.2 599 699 (by norm_num) (by norm_num)
    rw [if_pos (by omega)] at h2
    exact h2
  · have h2 := h.2.2 5 700 (by norm_num) (by norm_num)
    rw [if_neg (by omega)] at h2
    exact h2

end MLA
